import Mathlib

/-!
Shallow embedding of the vector-database client of the mulabot-csm repository
(src/pinecone-setup/pinecone-client.js, configuration values from
src/slack-bot/pinecone-config.js), together with theorems settling the
behavioural claims about batching, retry, validation, chunking, publisher
normalization, health state and metrics.

Modelling conventions:
* JS arrays become Lean lists; JS strings become Lean `String` (the inputs at
  stake are ASCII, where JS UTF-16 length, `toLowerCase` and `trim` agree with
  the code-point model used here).
* Fallible code (`throw`) becomes `Except String`.
* Wall-clock durations are threaded as explicit `Nat` parameters (the client
  measures them with `Date.now()`; time itself is not modelled).
* The external vector store is an explicit function argument
  `store : List Vec → Nat → Except String Unit`, giving the outcome of the
  `attempt`-th store call for a given batch; the embedding API is likewise an
  explicit function argument.
-/

set_option maxRecDepth 20000

namespace Mulabot

/-! ### Configuration (src/slack-bot/pinecone-config.js) -/

/-- BATCH_CONFIG.maxBatchSize. -/
def maxBatchSize : Nat := 100

/-- BATCH_CONFIG.maxConcurrentBatches. -/
def maxConcurrentBatches : Nat := 5

/-- ERROR_CONFIG.maxRetries. -/
def maxRetries : Nat := 3

/-- HEALTH_CONFIG.healthyThreshold. -/
def healthyThreshold : Nat := 2

/-- HEALTH_CONFIG.unhealthyThreshold. -/
def unhealthyThreshold : Nat := 3

/-- PINECONE_CONFIG.dimensions. -/
def dimensions : Nat := 1536

/-- PERFORMANCE_CONFIG.enableMetrics. -/
def enableMetrics : Bool := true

/-- PERFORMANCE_CONFIG.slowQueryThreshold (ms). -/
def slowQueryThreshold : Nat := 5000

/-- VALIDATION_CONFIG.enforceSchema. -/
def enforceSchema : Bool := true

/-- VALIDATION_CONFIG.validateMetadata. -/
def validateMetadataCfg : Bool := true

/-- VALIDATION_CONFIG.validateVectorDimensions. -/
def validateVectorDimensionsCfg : Bool := true

/-- VALIDATION_CONFIG.allowExtraFields. -/
def allowExtraFields : Bool := false

/-- VALIDATION_CONFIG.requiredFields. -/
def requiredFields : List String := ["publisher", "date", "content_type", "source"]

/-- The keys of VECTOR_METADATA_SCHEMA (the allowed metadata fields used by the
extra-field check in validateMetadata). -/
def allowedFields : List String :=
  ["publisher", "date", "content_type", "source",
   "section", "timestamp", "content_length", "confidence_score", "summary",
   "keywords", "sentiment", "category", "priority",
   "created_at", "updated_at", "version", "processed_by"]

/-! ### chunkArray (pinecone-client.js lines 979-985)

`chunkArray(array, size)` pushes `array.slice(i, i + size)` for
`i = 0, size, 2*size, ...`.  The JS loop never terminates for `size = 0`;
the client only ever calls it with positive sizes (100 and 5), and the model
returns `[]` in that degenerate case. -/

def chunkArray (l : List α) (size : Nat) : List (List α) :=
  if l.isEmpty then [] else
  if size = 0 then [] else
  l.take size :: chunkArray (l.drop size) size
termination_by l.length
decreasing_by
  simp only [List.length_drop]
  rename_i h1 h2
  have hl : l.length ≠ 0 := by
    simpa [List.isEmpty_iff_length_eq_zero] using h1
  omega

/-! ### Operation metrics (pinecone-client.js recordMetric, lines 898-922)

`this.metrics.operations` is a JS object mapping operation names to metric
records; it is modelled as an association list in insertion order.  The
derived float `avgDuration` (recomputed as `totalDuration / count` on every
record) is omitted from the state; `minDuration`'s initial value `Infinity`
is modelled as `none`.  The separate error-metrics map `this.metrics.errors`
(recordError) is distinct state and is not needed by any claim. -/

structure OpMetric where
  count : Nat
  totalDuration : Nat
  minDuration : Option Nat
  maxDuration : Nat
  slowQueries : Nat
deriving DecidableEq

def emptyOpMetric : OpMetric := ⟨0, 0, none, 0, 0⟩

/-- JS object property assignment on the operations map: overwrite in place if
the key exists, else append (JS objects preserve insertion order). -/
def setOp (ops : List (String × OpMetric)) (k : String) (v : OpMetric) :
    List (String × OpMetric) :=
  if (ops.lookup k).isSome then
    ops.map (fun p => if p.1 = k then (k, v) else p)
  else ops ++ [(k, v)]

/-- recordMetric(operation, duration, count). -/
def recordMetric (ops : List (String × OpMetric)) (operation : String)
    (duration : Nat) (count : Nat) : List (String × OpMetric) :=
  if enableMetrics = false then ops else
  let m := (ops.lookup operation).getD emptyOpMetric
  let m1 : OpMetric :=
    { count := m.count + count
      totalDuration := m.totalDuration + duration
      minDuration := some (match m.minDuration with
        | none => duration
        | some x => min x duration)
      maxDuration := max m.maxDuration duration
      slowQueries := m.slowQueries + (if slowQueryThreshold < duration then 1 else 0) }
  setOp ops operation m1

/-! ### Vectors and validation (pinecone-client.js lines 696-747)

A vector is a JS object `{id, values, metadata}`; absent properties are
modelled with `Option`.  Metadata is an association list of string-valued
fields (the required fields are all string-typed in the schema); JS property
access is `lookup`, and JS truthiness of such a property is "present and
non-empty". -/

structure Vec where
  id : Option String
  values : Option (List Float)
  metadata : Option (List (String × String))

/-- JS truthiness test `!x` for an optional string property. -/
def jsFalsy : Option String → Bool
  | none => true
  | some s => s == ""

/-- validateMetadata (lines 728-747): under `enforceSchema`, first the
required-fields loop (throwing at the first falsy required field), then —
since `allowExtraFields = false` — the extra-fields loop over the metadata's
own keys. -/
def validateMetadata (metadata : List (String × String)) : Except String Unit :=
  if enforceSchema then
    match requiredFields.find? (fun f => jsFalsy (metadata.lookup f)) with
    | some f => .error ("Required metadata field missing: " ++ f)
    | none =>
      if allowExtraFields = false then
        match (metadata.map Prod.fst).find? (fun f => allowedFields.contains f = false) with
        | some f => .error ("Extra metadata field not allowed: " ++ f)
        | none => .ok ()
      else .ok ()
  else .ok ()

/-- The per-vector body of the validateVectors loop (lines 701-722): id check,
values check, dimension check, and — only when a metadata object is present —
metadata validation. -/
def validateVector (v : Vec) : Except String Unit :=
  if jsFalsy v.id then .error ("Vector must have an id")
  else match v.values with
    | none => .error ("Vector must have values array")
    | some vals =>
      if validateVectorDimensionsCfg && (vals.length != dimensions) then
        .error ("Vector dimensions mismatch: expected " ++ toString dimensions ++
                ", got " ++ toString vals.length)
      else match v.metadata with
        | some md => if validateMetadataCfg then validateMetadata md else .ok ()
        | none => .ok ()

/-- validateVectors (lines 696-723): validates each vector in order, throwing
at the first failure. -/
def validateVectors : List Vec → Except String Unit
  | [] => .ok ()
  | v :: rest =>
    match validateVector v with
    | .error e => .error e
    | .ok _ => validateVectors rest

/-! ### executeWithRetry (pinecone-client.js lines 774-800)

The wrapped operation is modelled by the outcome of each of its invocations:
`op i` is the result of the `i`-th invocation (a timed-out attempt is an
attempt whose outcome is an error; backoff sleeps only affect wall-clock time).
The model returns the final result together with the number of invocations. -/

def retryFrom (op : Nat → Except String β) (attempt : Nat) :
    Nat → Except String β × Nat
  | 0 => (.error ("no attempt was made"), 0)
  | r + 1 =>
    match op attempt with
    | .ok a => (.ok a, 1)
    | .error e =>
      if r = 0 then (.error e, 1)
      else
        let p := retryFrom op (attempt + 1) r
        (p.1, p.2 + 1)

/-- executeWithRetry: up to `maxRetries` attempts; on the last failed attempt
the loop breaks and the most recent error is re-thrown.  (The `remaining = 0`
base case of `retryFrom` is unreachable for the configured `maxRetries = 3`;
it models JS throwing the undefined `lastError`.) -/
def executeWithRetry (op : Nat → Except String β) : Except String β × Nat :=
  retryFrom op 0 maxRetries

/-! ### upsertVectors / batchUpsertVectors (pinecone-client.js lines 202-300)

The external store is an explicit argument `store : List Vec → Nat → Except
String Unit`: `store batch i` is the outcome of the `i`-th store call issued
for that batch (by its executeWithRetry wrapper).  A run records the overall
outcome, the chronological list of store calls issued (each entry the batch of
vectors sent), and the final operations-metrics map. -/

structure UpsertRun where
  result : Except String Unit
  calls : List (List Vec)
  operations : List (String × OpMetric)

def exceptIsError : Except String Unit → Bool
  | .error _ => true
  | .ok _ => false

/-- upsertSingleBatch (lines 281-300): one executeWithRetry around a store
upsert of this batch; each attempt is one store call carrying the batch. -/
def runSingleBatch (store : List Vec → Nat → Except String Unit)
    (batch : List Vec) : Except String Unit × List (List Vec) :=
  let p := executeWithRetry (store batch)
  (p.1, List.replicate p.2 batch)

/-- One concurrency group of `batchUpsertVectors` (a `Promise.all` over a
slice of at most `maxConcurrentBatches` batches): every batch of the group is
dispatched; the group's result is the first member failure if any, else
success. -/
def runGroup (store : List Vec → Nat → Except String Unit)
    (group : List (List Vec)) : Except String Unit × List (List Vec) :=
  let results := group.map (runSingleBatch store)
  let calls := (results.map Prod.snd).flatten
  match results.find? (fun p => exceptIsError p.1) with
  | some p => (p.1, calls)
  | none => (.ok (), calls)

/-- The group loop of batchUpsertVectors (lines 253-262): groups are awaited
sequentially; a failed group stops the run (its own calls were already
issued). -/
def runGroups (store : List Vec → Nat → Except String Unit) :
    List (List (List Vec)) → Except String Unit × List (List Vec)
  | [] => (.ok (), [])
  | g :: rest =>
    let p := runGroup store g
    match p.1 with
    | .error e => (.error e, p.2)
    | .ok _ =>
      let q := runGroups store rest
      (q.1, p.2 ++ q.2)

/-- batchUpsertVectors (lines 243-276): split into batches of `maxBatchSize`,
dispatch in groups of `maxConcurrentBatches` (the slice loop is `chunkArray`
over the batch list), and on success record a `batch_upsert` metric for the
full vector count.  On failure recordError touches only the error-metrics map
(not modelled), so the operations map is unchanged. -/
def batchUpsertVectorsRun (store : List Vec → Nat → Except String Unit)
    (vectors : List Vec) (ops0 : List (String × OpMetric)) (duration : Nat) :
    UpsertRun :=
  let batches := chunkArray vectors maxBatchSize
  let p := runGroups store (chunkArray batches maxConcurrentBatches)
  match p.1 with
  | .ok _ => ⟨.ok (), p.2, recordMetric ops0 ("batch_upsert") duration vectors.length⟩
  | .error e => ⟨.error e, p.2, ops0⟩

/-- upsertVectors (lines 202-238): validate first; if the list exceeds
`maxBatchSize` return the batched run directly (note: without recording an
`upsert` metric); otherwise one retry-wrapped store call, recording an
`upsert` metric on success. -/
def upsertVectorsRun (store : List Vec → Nat → Except String Unit)
    (vectors : List Vec) (ops0 : List (String × OpMetric)) (duration : Nat) :
    UpsertRun :=
  match validateVectors vectors with
  | .error e => ⟨.error e, [], ops0⟩
  | .ok _ =>
    if maxBatchSize < vectors.length then
      batchUpsertVectorsRun store vectors ops0 duration
    else
      let p := executeWithRetry (store vectors)
      match p.1 with
      | .ok _ =>
        ⟨.ok (), List.replicate p.2 vectors,
         recordMetric ops0 ("upsert") duration vectors.length⟩
      | .error e => ⟨.error e, List.replicate p.2 vectors, ops0⟩

/-! ### Health monitoring (pinecone-client.js performHealthCheck, lines 827-860)

A probe outcome is `true` (the stats call succeeded within its timeout) or
`false`.  `lastCheck` is a wall-clock timestamp and is not modelled. -/

structure HealthStatus where
  isHealthy : Bool
  consecutiveFailures : Nat
  consecutiveSuccesses : Nat
deriving DecidableEq

/-- The constructor-time health state (lines 27-32). -/
def initialHealthStatus : HealthStatus := ⟨false, 0, 0⟩

/-- One performHealthCheck: the success branch zeroes the failure counter,
bumps the success counter and switches to healthy at `healthyThreshold`; the
catch branch is symmetric with `unhealthyThreshold`. -/
def performHealthCheck (s : HealthStatus) (probeOk : Bool) : HealthStatus :=
  if probeOk then
    let s1 : HealthStatus := ⟨s.isHealthy, 0, s.consecutiveSuccesses + 1⟩
    if healthyThreshold ≤ s1.consecutiveSuccesses then
      ⟨true, s1.consecutiveFailures, s1.consecutiveSuccesses⟩
    else s1
  else
    let s1 : HealthStatus := ⟨s.isHealthy, s.consecutiveFailures + 1, 0⟩
    if unhealthyThreshold ≤ s1.consecutiveFailures then
      ⟨false, s1.consecutiveFailures, s1.consecutiveSuccesses⟩
    else s1

/-- A sequence of probe outcomes applied in order. -/
def runHealth (s : HealthStatus) : List Bool → HealthStatus
  | [] => s
  | o :: os => runHealth (performHealthCheck s o) os

/-! ### Content chunking (pinecone-client.js chunkContentForEmbedding, lines 599-630)

Strings are treated code-point-wise (the relevant behaviour is over ASCII,
where this agrees with JS UTF-16 semantics). -/

/-- The sentence-terminal characters of the split regex `[.!?]+`. -/
def isTerminator (c : Char) : Bool := c = '.' || c = '!' || c = '?'

/-- The whitespace class trimmed by JS `String.prototype.trim` (restricted to
the ASCII whitespace characters; the full JS class also has Unicode spaces,
which do not occur in any input considered here). -/
def isJsSpace (c : Char) : Bool :=
  c = ' ' || c = '\t' || c = '\n' || c = '\r' || c = '\x0b' || c = '\x0c'

/-- `trim` on the character list: drop leading whitespace, then trailing. -/
def jsTrimChars (l : List Char) : List Char :=
  ((l.dropWhile isJsSpace).reverse.dropWhile isJsSpace).reverse

def jsTrim (s : String) : String := ⟨jsTrimChars s.data⟩

/-- `content.split(/[.!?]+/)` on the character list: split at each maximal run
of terminator characters (JS keeps empty segments at the edges and between
adjacent runs separated by other text). -/
def splitTermChars (l : List Char) (acc : List Char) : List (List Char) :=
  match l with
  | [] => [acc.reverse]
  | c :: cs =>
    if isTerminator c then
      acc.reverse :: splitTermChars (cs.dropWhile isTerminator) []
    else
      splitTermChars cs (c :: acc)
termination_by l.length
decreasing_by
  · have := (List.dropWhile_sublist (l := cs) isTerminator).length_le
    simp only [List.length_cons]
    omega
  · simp [List.length_cons]

def splitTerminators (s : String) : List String :=
  (splitTermChars s.data []).map (fun l => ⟨l⟩)

/-- The sentence loop of chunkContentForEmbedding (lines 605-627), carrying
the accumulated `chunks` and the running `currentChunk`. -/
def chunkLoop (maxChunkSize : Nat) :
    List String → List String → String → List String
  | [], chunks, currentChunk =>
    if jsTrim currentChunk ≠ "" then chunks ++ [jsTrim currentChunk] else chunks
  | sentence :: rest, chunks, currentChunk =>
    let trimmedSentence := jsTrim sentence
    if trimmedSentence = "" then chunkLoop maxChunkSize rest chunks currentChunk
    else if maxChunkSize < currentChunk.length + trimmedSentence.length then
      let chunks1 :=
        if jsTrim currentChunk ≠ "" then chunks ++ [jsTrim currentChunk] else chunks
      chunkLoop maxChunkSize rest chunks1 trimmedSentence
    else
      chunkLoop maxChunkSize rest chunks
        (currentChunk ++ (if currentChunk ≠ "" then ". " else "") ++ trimmedSentence)

/-- chunkContentForEmbedding(content, maxChunkSize): short content is a single
chunk; otherwise sentences are greedily packed, and if no nonempty chunk was
produced the original content is returned whole. -/
def chunkContentForEmbedding (content : String) (maxChunkSize : Nat) : List String :=
  if content.length ≤ maxChunkSize then [content]
  else
    let chunks := chunkLoop maxChunkSize (splitTerminators content) [] ""
    if 0 < chunks.length then chunks else [content]

/-- The default `maxChunkSize = 8000` of the JS signature. -/
def defaultMaxChunkSize : Nat := 8000

/-! ### Publisher normalization (pinecone-client.js lines 752-769,
PUBLISHER_CONFIG from pinecone-config.js lines 149-167) -/

/-- PUBLISHER_CONFIG.aliases, in source order. -/
def publisherAliases : List (String × List String) :=
  [("techcrunch", ["tc", "tech crunch", "techcrunch.com"]),
   ("brit+co", ["brit", "britco", "brit co", "brit-co"]),
   ("mashable", ["mash", "mashable.com"]),
   ("engadget", ["eng", "engadget.com"]),
   ("theverge", ["verge", "the verge", "theverge.com"]),
   ("wired", ["wired.com"]),
   ("ars technica", ["ars", "arstechnica", "ars-technica"])]

/-- `Object.keys(PUBLISHER_CONFIG.aliases)` — the canonical publisher keys. -/
def canonicalKeys : List String := publisherAliases.map Prod.fst

/-- JS `toLowerCase` (ASCII semantics; the alias table and the inputs at stake
are ASCII). -/
def jsToLower (s : String) : String := ⟨s.data.map Char.toLower⟩

/-- normalizePublisherName: lower-case and trim; return the normalized form if
it is already a canonical key; else the first canonical key whose alias list
holds it; else the original input unchanged. -/
def normalizePublisherName (publisherName : String) : String :=
  let normalized := jsTrim (jsToLower publisherName)
  if canonicalKeys.contains normalized then normalized
  else
    match publisherAliases.find? (fun p => p.2.contains normalized) with
    | some p => p.1
    | none => publisherName

/-! ### generateEmbeddings (pinecone-client.js lines 498-537)

The external embedding API is the argument `api : List String → List (List
Float)`, the per-text embeddings of a successful response
(`response.data.map(item => item.embedding)` in input order).  The claim at
stake is the shape of the successful path; the RetryExecutor wrapper and
metric recording around the API call are modelled separately above. -/

/-- The JS argument is either a single string or an array of strings. -/
inductive TextsInput where
  | single (s : String)
  | array (ts : List String)

/-- The JS return value: a single embedding (possibly `undefined`, modelled
`none`, when the response data is empty) or an array of embeddings. -/
inductive EmbOutput where
  | single (v : Option (List Float))
  | array (vs : List (List Float))

/-- `Array.isArray(texts) ? texts : [texts]`. -/
def textArrayOf : TextsInput → List String
  | .single s => [s]
  | .array ts => ts

/-- generateEmbeddings: embed `textArray`, then return
`Array.isArray(texts) ? embeddings : embeddings[0]`. -/
def generateEmbeddings (api : List String → List (List Float))
    (texts : TextsInput) : EmbOutput :=
  let textArray := textArrayOf texts
  let embeddings := api textArray
  match texts with
  | .single _ => .single embeddings.head?
  | .array _ => .array embeddings

deriving instance DecidableEq for Except

/-! ### Concrete instances used by witnesses and counterexamples -/

/-- A store whose every call succeeds. -/
def alwaysOkStore : List Vec → Nat → Except String Unit := fun _ _ => Except.ok ()

/-- A metadata object carrying exactly the four required fields. -/
def md0 : List (String × String) :=
  [("publisher", "techcrunch"), ("date", "2024-01-01"),
   ("content_type", "daily_digest"), ("source", "test")]

/-- A vector that passes validation (right dimension, full metadata). -/
def goodVec : Vec := ⟨some ("v1"), some (List.replicate 1536 (0.0 : Float)), some md0⟩

/-- A vector with valid id and values but no metadata object at all. -/
def noMdVec : Vec := ⟨some ("v2"), some (List.replicate 1536 (0.0 : Float)), none⟩

/-- A vector whose metadata object lacks the required `publisher` field. -/
def badMdVec : Vec := ⟨some ("v3"), some (List.replicate 1536 (0.0 : Float)),
  some [("date", "2024-01-01")]⟩

/-- The 250-vector upsert scenario of the spec. -/
def vecs250 : List Vec := List.replicate 250 goodVec

/-- An operation every invocation of which fails with an authentication
error (HTTP 401 / invalid key). -/
def authFailOp : Nat → Except String Unit :=
  fun _ => Except.error ("AuthenticationError: 401 invalid api key")

/-- An embedding API answering every text with the zero-length embedding. -/
def constEmbApi : List String → List (List Float) :=
  fun input => input.map (fun _ => [])

/-! ## Helper lemmas -/

theorem chunkArray_nil (size : Nat) : chunkArray ([] : List α) size = [] := by
  rw [chunkArray]
  simp

theorem chunkArray_cons (l : List α) (size : Nat) (hl : l ≠ []) (hs : size ≠ 0) :
    chunkArray l size = l.take size :: chunkArray (l.drop size) size := by
  rw [chunkArray]
  simp [List.isEmpty_iff, hl, hs]

/-- Concatenating the chunks gives back the original array. -/
theorem chunkArray_flatten (l : List α) (size : Nat) (hs : size ≠ 0) :
    (chunkArray l size).flatten = l := by
  revert hs
  induction l, size using chunkArray.induct with
  | case1 l size h =>
    intro hs
    rw [List.isEmpty_iff] at h
    subst h
    simp [chunkArray_nil]
  | case2 l h1 =>
    intro hs
    exact absurd rfl hs
  | case3 l size h1 h2 ih =>
    intro hs
    rw [List.isEmpty_iff] at h1
    rw [chunkArray_cons l size h1 hs]
    simp [ih hs]

/-- The number of chunks is the ceiling `⌈l.length / size⌉`, written
`(l.length + size - 1) / size`, for a nonempty array and positive size. -/
theorem chunkArray_length (l : List α) (size : Nat) (hl : l ≠ []) (hs : size ≠ 0) :
    (chunkArray l size).length = (l.length + size - 1) / size := by
  revert hl hs
  induction l, size using chunkArray.induct with
  | case1 l size h =>
    intro hl hs
    rw [List.isEmpty_iff] at h
    exact absurd h hl
  | case2 l h1 =>
    intro hl hs
    exact absurd rfl hs
  | case3 l size h1 h2 ih =>
    intro hl hs
    rw [chunkArray_cons l size (List.isEmpty_iff.not.mp h1) hs]
    by_cases hd : l.drop size = []
    · have hlen : l.length ≤ size := by
        have h3 := congrArg List.length hd
        simp only [List.length_drop, List.length_nil] at h3
        omega
      have hpos : 0 < l.length := List.length_pos.mpr (List.isEmpty_iff.not.mp h1)
      rw [hd, chunkArray_nil]
      have h4 : (l.length + size - 1) / size = 1 :=
        Nat.div_eq_of_lt_le (by omega) (by omega)
      simp [h4]
    · rw [List.length_cons, ih hd hs]
      simp only [List.length_drop]
      have hgt : size < l.length := by
        have h3 := List.length_pos.mpr hd
        simp only [List.length_drop] at h3
        omega
      have heq : l.length + size - 1 = (l.length - size + size - 1) + size := by omega
      rw [heq, Nat.add_div_right _ (Nat.pos_of_ne_zero hs)]

/-- Every chunk has at most `size` elements. -/
theorem chunkArray_chunk_le (l : List α) (size : Nat) (b : List α)
    (hb : b ∈ chunkArray l size) : b.length ≤ size := by
  revert hb
  induction l, size using chunkArray.induct with
  | case1 l size h =>
    intro hb
    rw [List.isEmpty_iff] at h
    subst h
    rw [chunkArray_nil] at hb
    exact absurd hb (List.not_mem_nil b)
  | case2 l h1 =>
    intro hb
    rw [chunkArray] at hb
    simp at hb
  | case3 l size h1 h2 ih =>
    intro hb
    rw [chunkArray_cons l size (List.isEmpty_iff.not.mp h1) h2] at hb
    rcases List.mem_cons.mp hb with h | h
    · subst h
      rw [List.length_take]
      omega
    · exact ih h

theorem executeWithRetry_first_ok (op : Nat → Except String β) (a : β)
    (h : op 0 = .ok a) : executeWithRetry op = (.ok a, 1) := by
  simp [executeWithRetry, maxRetries, retryFrom, h]

/-- Helper: an operation that fails on every invocation is invoked exactly
`maxRetries` times, and the error of the last invocation is re-raised. -/
theorem executeWithRetry_always_error (op : Nat → Except String β) (e : Nat → String)
    (h : ∀ i, op i = .error (e i)) :
    executeWithRetry op = (.error (e (maxRetries - 1)), maxRetries) := by
  simp [executeWithRetry, maxRetries, retryFrom, h 0, h 1, h 2]

/-- Helper: a store that succeeds on first attempt makes each single-batch
dispatch one successful call. -/
theorem runSingleBatch_ok (store : List Vec → Nat → Except String Unit)
    (batch : List Vec) (h : store batch 0 = .ok ()) :
    runSingleBatch store batch = (.ok (), [batch]) := by
  simp [runSingleBatch, executeWithRetry_first_ok (store batch) () h]

theorem flatten_map_singleton (l : List α) : (l.map (fun b => [b])).flatten = l := by
  induction l with
  | nil => rfl
  | cons a t ih => simp [ih]

theorem runGroup_ok (store : List Vec → Nat → Except String Unit)
    (group : List (List Vec)) (h : ∀ b ∈ group, store b 0 = .ok ()) :
    runGroup store group = (.ok (), group) := by
  have hmap : group.map (runSingleBatch store) = group.map (fun b => ((.ok ()), [b])) :=
    List.map_congr_left (fun b hb => runSingleBatch_ok store b (h b hb))
  have hfind : (group.map (fun b => (((.ok ()) : Except String Unit), [b]))).find?
      (fun p => exceptIsError p.1) = none := by
    rw [List.find?_eq_none]
    intro p hp
    rcases List.mem_map.mp hp with ⟨b, _, rfl⟩
    simp [exceptIsError]
  simp only [runGroup, hmap, hfind]
  simp only [List.map_map]
  exact congrArg _ (flatten_map_singleton group)

theorem runGroups_ok (store : List Vec → Nat → Except String Unit)
    (groups : List (List (List Vec))) (h : ∀ b, store b 0 = .ok ()) :
    runGroups store groups = (.ok (), groups.flatten) := by
  induction groups with
  | nil => simp [runGroups]
  | cons g rest ih =>
    rw [runGroups]
    rw [runGroup_ok store g (fun b _ => h b)]
    simp [ih]

/-- Helper: the shape of a fully successful upsert run (store succeeds on
every first attempt, validation passes). -/
theorem upsertVectorsRun_success (store : List Vec → Nat → Except String Unit)
    (vectors : List Vec) (ops0 : List (String × OpMetric)) (duration : Nat)
    (hstore : ∀ b, store b 0 = .ok ())
    (hval : validateVectors vectors = .ok ()) :
    upsertVectorsRun store vectors ops0 duration =
      if maxBatchSize < vectors.length then
        ⟨.ok (), chunkArray vectors maxBatchSize,
         recordMetric ops0 ("batch_upsert") duration vectors.length⟩
      else
        ⟨.ok (), [vectors], recordMetric ops0 ("upsert") duration vectors.length⟩ := by
  rw [upsertVectorsRun, hval]
  by_cases hlen : maxBatchSize < vectors.length
  · simp only [hlen, if_pos]
    rw [batchUpsertVectorsRun]
    rw [runGroups_ok store _ hstore]
    rw [chunkArray_flatten _ maxConcurrentBatches (by decide)]
  · simp only [hlen, if_neg, if_false]
    rw [executeWithRetry_first_ok (store vectors) () (hstore vectors)]
    simp

theorem performHealthCheck_true (s : HealthStatus) :
    performHealthCheck s true =
      ⟨(if healthyThreshold ≤ s.consecutiveSuccesses + 1 then true else s.isHealthy),
       0, s.consecutiveSuccesses + 1⟩ := by
  rw [performHealthCheck]
  by_cases h : healthyThreshold ≤ s.consecutiveSuccesses + 1 <;> simp [h]

theorem performHealthCheck_false (s : HealthStatus) :
    performHealthCheck s false =
      ⟨(if unhealthyThreshold ≤ s.consecutiveFailures + 1 then false else s.isHealthy),
       s.consecutiveFailures + 1, 0⟩ := by
  rw [performHealthCheck]
  by_cases h : unhealthyThreshold ≤ s.consecutiveFailures + 1 <;> simp [h]

theorem head?_dropWhile_not (p : α → Bool) :
    ∀ (l : List α) (c : α), (l.dropWhile p).head? = some c → p c = false := by
  intro l
  induction l with
  | nil => intro c h; simp [List.dropWhile] at h
  | cons a t ih =>
    intro c h
    rw [List.dropWhile_cons] at h
    by_cases ha : p a
    · rw [if_pos ha] at h
      exact ih c h
    · rw [if_neg ha] at h
      simp only [List.head?_cons, Option.some.injEq] at h
      subst h
      simpa using ha

theorem getLast?_dropWhile (p : α → Bool) :
    ∀ (l : List α), l.dropWhile p ≠ [] → (l.dropWhile p).getLast? = l.getLast? := by
  intro l
  induction l with
  | nil => intro h; simp [List.dropWhile] at h
  | cons a t ih =>
    intro h
    rw [List.dropWhile_cons]
    by_cases ha : p a
    · rw [List.dropWhile_cons, if_pos ha] at h
      have ht : t ≠ [] := by
        intro he
        subst he
        simp [List.dropWhile] at h
      rw [if_pos ha, ih h]
      cases t with
      | nil => exact absurd rfl ht
      | cons b u => exact List.getLast?_cons_cons.symm
    · rw [if_neg ha]

theorem dropWhile_eq_self_of_head (p : α → Bool) (l : List α)
    (h : ∀ c, l.head? = some c → p c = false) : l.dropWhile p = l := by
  cases l with
  | nil => rfl
  | cons a t =>
    rw [List.dropWhile_cons, if_neg]
    simp [h a rfl]

/-- The head of a trimmed character list is not whitespace. -/
theorem jsTrimChars_head (l : List Char) (c : Char)
    (h : (jsTrimChars l).head? = some c) : isJsSpace c = false := by
  rw [jsTrimChars, List.head?_reverse] at h
  have hne : (l.dropWhile isJsSpace).reverse.dropWhile isJsSpace ≠ [] := by
    intro he
    rw [he] at h
    simp at h
  rw [getLast?_dropWhile isJsSpace _ hne, List.getLast?_reverse] at h
  exact head?_dropWhile_not isJsSpace _ c h

/-- The last character of a trimmed character list is not whitespace. -/
theorem jsTrimChars_getLast (l : List Char) (c : Char)
    (h : (jsTrimChars l).getLast? = some c) : isJsSpace c = false := by
  rw [jsTrimChars, List.getLast?_reverse] at h
  exact head?_dropWhile_not isJsSpace _ c h

/-- A list whose two ends are not whitespace is unchanged by trimming. -/
theorem jsTrimChars_eq_self (l : List Char)
    (h1 : ∀ c, l.head? = some c → isJsSpace c = false)
    (h2 : ∀ c, l.getLast? = some c → isJsSpace c = false) :
    jsTrimChars l = l := by
  rw [jsTrimChars, dropWhile_eq_self_of_head isJsSpace l h1]
  rw [dropWhile_eq_self_of_head isJsSpace l.reverse
    (by intro c hc; rw [List.head?_reverse] at hc; exact h2 c hc)]
  exact List.reverse_reverse l

theorem jsTrim_idem (s : String) : jsTrim (jsTrim s) = jsTrim s := by
  rw [jsTrim, jsTrim]
  exact congrArg String.mk
    (jsTrimChars_eq_self _ (jsTrimChars_head s.data) (jsTrimChars_getLast s.data))

theorem splitTermChars_no_term (l acc : List Char)
    (h : ∀ c ∈ l, isTerminator c = false) :
    splitTermChars l acc = [acc.reverse ++ l] := by
  induction l generalizing acc with
  | nil => simp [splitTermChars]
  | cons c cs ih =>
    rw [splitTermChars]
    rw [if_neg (by simp [h c (List.mem_cons_self c cs)])]
    rw [ih (c :: acc) (fun d hd => h d (List.mem_cons_of_mem c hd))]
    simp

/-- A string without sentence terminators splits into itself alone. -/
theorem splitTerminators_no_term (s : String)
    (h : ∀ c ∈ s.data, isTerminator c = false) :
    splitTerminators s = [s] := by
  rw [splitTerminators, splitTermChars_no_term s.data [] h]
  simp

/-! ## The claims -/

/-- C2: an operation that throws on every invocation is invoked exactly
`maxRetries` (the configured default, 3) times by executeWithRetry, which then
re-raises the most recent error observed; it does not return a value and does
not swallow the failure. -/
theorem executeWithRetry_exhaustion (op : Nat → Except String β)
    (e : Nat → String) (h : ∀ i, op i = .error (e i)) :
    (executeWithRetry op).2 = maxRetries ∧ maxRetries = 3 ∧
    (executeWithRetry op).1 = .error (e (maxRetries - 1)) := by
  rw [executeWithRetry_always_error op e h]
  exact ⟨rfl, rfl, rfl⟩

/-- Witness for C2 at a concrete always-failing operation. -/
theorem executeWithRetry_exhaustion_witness :
    (executeWithRetry (fun _ => (Except.error ("boom") : Except String Unit))).2 = 3 ∧
    (executeWithRetry (fun _ => (Except.error ("boom") : Except String Unit))).1 =
      .error ("boom") := by
  have h := executeWithRetry_exhaustion
    (fun _ => (Except.error ("boom") : Except String Unit)) (fun _ => "boom")
    (fun _ => rfl)
  exact ⟨h.1, h.2.2⟩

/-- C6 counterexample: an operation failing every time with an authentication
error is invoked 3 times by executeWithRetry, not exactly once as the claim
states. -/
theorem authFailOp_not_invoked_once :
    (executeWithRetry authFailOp).2 = 3 ∧ (executeWithRetry authFailOp).2 ≠ 1 := by
  decide

/-- C6 (amended): executeWithRetry classifies no error as non-retryable; an
operation whose every invocation fails with an AuthenticationError is invoked
`maxRetries` (3) times, not once, and the authentication error is surfaced to
the caller only after retry exhaustion. -/
theorem executeWithRetry_retries_auth_errors (msg : String)
    (op : Nat → Except String β) (h : ∀ i, op i = .error msg) :
    executeWithRetry op = (.error msg, maxRetries) ∧ maxRetries ≠ 1 := by
  refine ⟨?_, by decide⟩
  simpa using executeWithRetry_always_error op (fun _ => msg) h

/-- Witness for the amended C6 at the concrete authentication-failing
operation. -/
theorem executeWithRetry_retries_auth_errors_witness :
    executeWithRetry authFailOp =
      (.error ("AuthenticationError: 401 invalid api key"), 3) := by
  have h := executeWithRetry_retries_auth_errors
    ("AuthenticationError: 401 invalid api key") authFailOp (fun _ => rfl)
  exact h.1

/-- C1 counterexample: upserting the empty vector list still issues one store
call (the single-batch path fires for every `n ≤ 100`, the empty list
included), while `⌈0/100⌉ = 0`. -/
theorem upsertVectors_empty_still_one_call :
    (upsertVectorsRun alwaysOkStore [] [] 0).calls.length = 1 ∧
    ((List.length ([] : List Vec)) + maxBatchSize - 1) / maxBatchSize = 0 ∧
    (upsertVectorsRun alwaysOkStore [] [] 0).calls.length ≠
      ((List.length ([] : List Vec)) + maxBatchSize - 1) / maxBatchSize := by
  refine ⟨rfl, by decide, by decide⟩

/-- C1 (amended: for a nonempty list; the empty list is sent as one store call
with an empty batch): a successful upsert of `n ≥ 1` vectors with
`maxBatchSize = 100`, every batch succeeding on its first attempt, issues
exactly `⌈n/100⌉` store calls — a single call holding the whole list when
`n ≤ 100`, else `⌈n/100⌉` batches of at most 100 vectors each whose
concatenation in order is the input list. -/
theorem upsertVectors_batch_splitting (store : List Vec → Nat → Except String Unit)
    (vectors : List Vec) (ops0 : List (String × OpMetric)) (duration : Nat)
    (hstore : ∀ b, store b 0 = .ok ())
    (hval : validateVectors vectors = .ok ())
    (hne : vectors ≠ []) :
    (upsertVectorsRun store vectors ops0 duration).result = .ok () ∧
    (upsertVectorsRun store vectors ops0 duration).calls.length =
      (vectors.length + maxBatchSize - 1) / maxBatchSize ∧
    (upsertVectorsRun store vectors ops0 duration).calls.flatten = vectors ∧
    (∀ b ∈ (upsertVectorsRun store vectors ops0 duration).calls,
      b.length ≤ maxBatchSize) ∧
    (vectors.length ≤ maxBatchSize →
      (upsertVectorsRun store vectors ops0 duration).calls = [vectors]) := by
  rw [upsertVectorsRun_success store vectors ops0 duration hstore hval]
  have hm : maxBatchSize = 100 := rfl
  by_cases hlen : maxBatchSize < vectors.length
  · rw [if_pos hlen]
    refine ⟨rfl, ?_, ?_, ?_, ?_⟩
    · exact chunkArray_length vectors maxBatchSize hne (by decide)
    · exact chunkArray_flatten vectors maxBatchSize (by decide)
    · intro b hb
      exact chunkArray_chunk_le vectors maxBatchSize b hb
    · intro hle
      omega
  · rw [if_neg hlen]
    have hpos : 0 < vectors.length := List.length_pos.mpr hne
    have hle : vectors.length ≤ maxBatchSize := Nat.not_lt.mp hlen
    refine ⟨rfl, ?_, by simp, ?_, fun _ => rfl⟩
    · have h1 : (vectors.length + maxBatchSize - 1) / maxBatchSize = 1 :=
        Nat.div_eq_of_lt_le (by omega) (by omega)
      simp [h1]
    · intro b hb
      rw [List.mem_singleton] at hb
      subst hb
      exact hle

/-- Witness for the amended C1 at a concrete one-vector list. -/
theorem upsertVectors_batch_splitting_witness :
    (upsertVectorsRun alwaysOkStore [goodVec] [] 0).calls = [[goodVec]] ∧
    (upsertVectorsRun alwaysOkStore [goodVec] [] 0).result = .ok () := by
  have h := upsertVectors_batch_splitting alwaysOkStore [goodVec] [] 0
    (fun b => rfl) (by decide) (by simp)
  exact ⟨h.2.2.2.2 (by decide), h.1⟩

/-- Helper: the concrete good vector passes validateVectors' per-vector
checks. -/
theorem validateVector_goodVec : validateVector goodVec = .ok () := by decide

/-- Helper: a list of copies of one valid vector passes validation. -/
theorem validateVectors_replicate (n : Nat) (v : Vec)
    (h : validateVector v = .ok ()) :
    validateVectors (List.replicate n v) = .ok () := by
  induction n with
  | zero => rfl
  | succ k ih =>
    rw [List.replicate_succ, validateVectors, h]
    exact ih

/-- Helper: recordMetric on a fresh operations map creates the one entry. -/
theorem recordMetric_fresh (op : String) (duration count : Nat) :
    recordMetric [] op duration count =
      [(op, ⟨0 + count, 0 + duration, some duration, max 0 duration,
             0 + if slowQueryThreshold < duration then 1 else 0⟩)] := rfl

/-- C9 counterexample: after a successful 250-vector upsert from a fresh
metrics map there is no `upsert` operation metric at all — the batched path
records `batch_upsert` instead. -/
theorem upsert250_no_upsert_metric :
    (upsertVectorsRun alwaysOkStore vecs250 [] 0).operations.lookup ("upsert") =
      none ∧
    (upsertVectorsRun alwaysOkStore vecs250 [] 0).operations.lookup ("batch_upsert")
      ≠ none := by
  have hval : validateVectors vecs250 = .ok () :=
    validateVectors_replicate 250 goodVec validateVector_goodVec
  have hlen : vecs250.length = 250 := by simp [vecs250]
  rw [upsertVectorsRun_success alwaysOkStore vecs250 [] 0 (fun b => rfl) hval]
  rw [if_pos (by rw [hlen]; decide)]
  rw [hlen]
  rw [recordMetric_fresh]
  exact ⟨rfl, by simp [List.lookup]⟩

/-- C9 (amended): submitting a 250-vector upsert with `maxBatchSize = 100` and
`maxConcurrentBatches = 5` dispatches exactly 3 batches; when all succeed the
metrics afterwards hold a `batch_upsert` operation metric whose count is 250
and no `upsert` metric (the batched path returns before the `upsert` metric
would be recorded). -/
theorem upsert250_three_batches_metrics (store : List Vec → Nat → Except String Unit)
    (duration : Nat) (hstore : ∀ b, store b 0 = .ok ()) :
    (upsertVectorsRun store vecs250 [] duration).result = .ok () ∧
    (upsertVectorsRun store vecs250 [] duration).calls.length = 3 ∧
    (∃ m, (upsertVectorsRun store vecs250 [] duration).operations.lookup
        ("batch_upsert") = some m ∧ m.count = 250) ∧
    (upsertVectorsRun store vecs250 [] duration).operations.lookup ("upsert") =
      none := by
  have hval : validateVectors vecs250 = .ok () :=
    validateVectors_replicate 250 goodVec validateVector_goodVec
  have hlen : vecs250.length = 250 := by simp [vecs250]
  rw [upsertVectorsRun_success store vecs250 [] duration hstore hval]
  rw [if_pos (by rw [hlen]; decide)]
  rw [hlen]
  rw [recordMetric_fresh]
  refine ⟨rfl, ?_, ?_, ?_⟩
  · rw [chunkArray_length vecs250 maxBatchSize (by simp [vecs250]) (by decide), hlen]
    decide
  · exact ⟨_, rfl, rfl⟩
  · simp [List.lookup]

/-- Witness for the amended C9 at the all-success store. -/
theorem upsert250_three_batches_metrics_witness :
    (upsertVectorsRun alwaysOkStore vecs250 [] 0).calls.length = 3 ∧
    (upsertVectorsRun alwaysOkStore vecs250 [] 0).result = .ok () := by
  have h := upsert250_three_batches_metrics alwaysOkStore 0 (fun b => rfl)
  exact ⟨h.2.1, h.1⟩

/-- Helper: a metadata object with a falsy required field makes
validateMetadata throw a missing-required-field error (the required-field
loop runs before the extra-field loop, so the error is always of this
shape). -/
theorem validateMetadata_missing (md : List (String × String)) (f : String)
    (hf : f ∈ requiredFields) (hmiss : jsFalsy (md.lookup f) = true) :
    ∃ f2 ∈ requiredFields,
      validateMetadata md = .error ("Required metadata field missing: " ++ f2) := by
  have hsome : (requiredFields.find? (fun g => jsFalsy (md.lookup g))).isSome :=
    List.find?_isSome.mpr ⟨f, hf, hmiss⟩
  obtain ⟨f2, hfind⟩ := Option.isSome_iff_exists.mp hsome
  refine ⟨f2, List.mem_of_find?_eq_some hfind, ?_⟩
  rw [validateMetadata, if_pos (by decide), hfind]

/-- Helper: a vector carrying a metadata object that fails validateMetadata
never passes validateVector (whichever check fires first, some error is
thrown). -/
theorem validateVector_error_of_bad_metadata (v : Vec) (md : List (String × String))
    (hmd : v.metadata = some md) (hbad : ∃ e, validateMetadata md = .error e) :
    ∃ e, validateVector v = .error e := by
  obtain ⟨e0, he0⟩ := hbad
  rw [validateVector]
  by_cases h1 : jsFalsy v.id
  · rw [if_pos h1]
    exact ⟨_, rfl⟩
  · rw [if_neg h1]
    cases hvals : v.values with
    | none => exact ⟨_, rfl⟩
    | some vals =>
      dsimp only
      by_cases h2 : (validateVectorDimensionsCfg && (vals.length != dimensions)) = true
      · rw [if_pos h2]
        exact ⟨_, rfl⟩
      · rw [if_neg h2, hmd]
        dsimp only
        rw [if_pos (show validateMetadataCfg = true from rfl)]
        exact ⟨e0, he0⟩

/-- Helper: validateVectors fails whenever some member fails the per-vector
check (the loop either reaches that member and throws, or throws earlier). -/
theorem validateVectors_error_of_mem (vectors : List Vec) (v : Vec)
    (hv : v ∈ vectors) (herr : ∃ e, validateVector v = .error e) :
    ∃ e, validateVectors vectors = .error e := by
  induction vectors with
  | nil => cases hv
  | cons a rest ih =>
    rw [validateVectors]
    cases ha : validateVector a with
    | error e => exact ⟨e, rfl⟩
    | ok u =>
      rcases List.mem_cons.mp hv with h | hmem
      · obtain ⟨e, he⟩ := herr
        rw [← h] at ha
        rw [ha] at he
        exact absurd he (by simp)
      · simpa using ih hmem

/-- C3 counterexample: a vector with valid id and values but *no metadata
object at all* — so every required field is absent — passes validation and the
upsert proceeds to the store (`vector.metadata` is falsy, so validateMetadata
is skipped entirely). -/
theorem vector_without_metadata_passes_validation :
    validateVectors [noMdVec] = .ok () ∧
    (upsertVectorsRun alwaysOkStore [noMdVec] [] 0).calls = [[noMdVec]] := by
  constructor
  · decide
  · rw [upsertVectorsRun_success alwaysOkStore [noMdVec] [] 0 (fun b => rfl) (by decide)]
    rw [if_neg (by decide)]

/-- C3 (amended: for vectors that carry a metadata object; a vector whose
metadata object is absent skips metadata validation entirely): under the
default configuration, a vector whose metadata object lacks any configured
required field (publisher, date, content_type, source) makes validation fail —
validateMetadata throws a missing-required-field error and the upsert issues
no store call. -/
theorem upsert_missing_required_field_rejected
    (store : List Vec → Nat → Except String Unit) (vectors : List Vec)
    (ops0 : List (String × OpMetric)) (duration : Nat)
    (v : Vec) (md : List (String × String)) (f : String)
    (hv : v ∈ vectors) (hmd : v.metadata = some md)
    (hf : f ∈ requiredFields) (hmiss : jsFalsy (md.lookup f) = true) :
    (∃ f2 ∈ requiredFields,
      validateMetadata md = .error ("Required metadata field missing: " ++ f2)) ∧
    (∃ e, validateVectors vectors = .error e) ∧
    (upsertVectorsRun store vectors ops0 duration).calls = [] := by
  have hbadmd := validateMetadata_missing md f hf hmiss
  have hbadv : ∃ e, validateVector v = .error e := by
    obtain ⟨f2, _, h⟩ := hbadmd
    exact validateVector_error_of_bad_metadata v md hmd ⟨_, h⟩
  have hvecs := validateVectors_error_of_mem vectors v hv hbadv
  refine ⟨hbadmd, hvecs, ?_⟩
  obtain ⟨e, he⟩ := hvecs
  rw [upsertVectorsRun, he]

/-- Witness for the amended C3 at a concrete vector missing `publisher`. -/
theorem upsert_missing_required_field_rejected_witness :
    (upsertVectorsRun alwaysOkStore [badMdVec] [] 0).calls = [] := by
  have h := upsert_missing_required_field_rejected alwaysOkStore [badMdVec] [] 0
    badMdVec [("date", "2024-01-01")] ("publisher")
    (by simp) rfl (by decide) (by decide)
  exact h.2.2

/-- C4: generateEmbeddings preserves input shape whenever the embedding API
answers with one embedding per input text: a single string yields the single
embedding of that text (not wrapped in an array), and a list of `k` texts
yields exactly the API's `k` embeddings in input order. -/
theorem generateEmbeddings_shape (api : List String → List (List Float))
    (s : String) (ts : List String)
    (h : ∀ input, (api input).length = input.length) :
    (∃ v, api [s] = [v] ∧ generateEmbeddings api (.single s) = .single (some v)) ∧
    generateEmbeddings api (.array ts) = .array (api ts) ∧
    (api ts).length = ts.length := by
  refine ⟨?_, rfl, h ts⟩
  have h1 : (api [s]).length = 1 := by
    rw [h [s]]
    rfl
  obtain ⟨v, hv⟩ := List.length_eq_one.mp h1
  refine ⟨v, hv, ?_⟩
  show EmbOutput.single (api [s]).head? = .single (some v)
  rw [hv]
  rfl

/-- Witness for C4 at a concrete two-text batch and a single text. -/
theorem generateEmbeddings_shape_witness :
    generateEmbeddings constEmbApi (.array (["a", "b"])) = .array ([[], []]) ∧
    generateEmbeddings constEmbApi (.single ("a")) = .single (some ([])) := by
  have h := generateEmbeddings_shape constEmbApi ("a") (["a", "b"])
    (fun input => by simp [constEmbApi])
  refine ⟨h.2.1, ?_⟩
  obtain ⟨v, hv, hs⟩ := h.1
  have hv2 : v = ([] : List Float) := by
    have h3 : ([([] : List Float)] : List (List Float)) = [v] := hv
    simpa using h3.symm
  rw [hv2] at hs
  exact hs

/-- C5: the health state machine: a successful probe zeroes the consecutive-
failure counter and a failed probe zeroes the consecutive-success counter;
`isHealthy` flips to true only on a successful probe reaching
`healthyThreshold` (2) consecutive successes, flips to false only on a failed
probe reaching `unhealthyThreshold` (3) consecutive failures; and from any
state, after 3 consecutive failed probes `isHealthy` is false, and one
subsequent success does not make it true again. -/
theorem healthCheck_state_machine (s : HealthStatus) (o : Bool) :
    (performHealthCheck s true).consecutiveFailures = 0 ∧
    (performHealthCheck s false).consecutiveSuccesses = 0 ∧
    (s.isHealthy = false → (performHealthCheck s o).isHealthy = true →
      o = true ∧ healthyThreshold ≤ (performHealthCheck s o).consecutiveSuccesses) ∧
    (s.isHealthy = true → (performHealthCheck s o).isHealthy = false →
      o = false ∧ unhealthyThreshold ≤ (performHealthCheck s o).consecutiveFailures) ∧
    (runHealth s [false, false, false]).isHealthy = false ∧
    (runHealth s [false, false, false, true]).isHealthy = false := by
  have hfail : ∀ t : HealthStatus, (performHealthCheck t false).consecutiveFailures =
      t.consecutiveFailures + 1 := by
    intro t
    rw [performHealthCheck_false]
  have hsucc0 : ∀ t : HealthStatus, (performHealthCheck t false).consecutiveSuccesses =
      0 := by
    intro t
    rw [performHealthCheck_false]
  have hkey : ∀ t : HealthStatus, unhealthyThreshold ≤ t.consecutiveFailures + 1 →
      (performHealthCheck t false).isHealthy = false := by
    intro t ht
    rw [performHealthCheck_false]
    show (if unhealthyThreshold ≤ t.consecutiveFailures + 1 then false
          else t.isHealthy) = false
    rw [if_pos ht]
  have h3 : (runHealth s [false, false, false]).isHealthy = false := by
    show (performHealthCheck (performHealthCheck (performHealthCheck s false) false)
      false).isHealthy = false
    apply hkey
    rw [hfail, hfail]
    show unhealthyThreshold ≤ s.consecutiveFailures + 1 + 1 + 1
    have : unhealthyThreshold = 3 := rfl
    omega
  refine ⟨?_, ?_, ?_, ?_, h3, ?_⟩
  · rw [performHealthCheck_true]
  · rw [performHealthCheck_false]
  · intro h1 h2
    cases o with
    | false =>
      rw [performHealthCheck_false] at h2
      by_cases hc : unhealthyThreshold ≤ s.consecutiveFailures + 1
      · simp [hc] at h2
      · simp [hc] at h2
        simp [h1] at h2
    | true =>
      rw [performHealthCheck_true] at h2
      by_cases hc : healthyThreshold ≤ s.consecutiveSuccesses + 1
      · refine ⟨rfl, ?_⟩
        rw [performHealthCheck_true]
        simpa using hc
      · simp [hc] at h2
        simp [h1] at h2
  · intro h1 h2
    cases o with
    | false =>
      rw [performHealthCheck_false] at h2
      by_cases hc : unhealthyThreshold ≤ s.consecutiveFailures + 1
      · refine ⟨rfl, ?_⟩
        rw [performHealthCheck_false]
        simpa using hc
      · simp [hc] at h2
        simp [h1] at h2
    | true =>
      rw [performHealthCheck_true] at h2
      by_cases hc : healthyThreshold ≤ s.consecutiveSuccesses + 1
      · simp [hc] at h2
      · simp [hc] at h2
        simp [h1] at h2
  · show (performHealthCheck (runHealth s [false, false, false]) true).isHealthy =
      false
    rw [performHealthCheck_true]
    show (if healthyThreshold ≤
            (runHealth s [false, false, false]).consecutiveSuccesses + 1 then true
          else (runHealth s [false, false, false]).isHealthy) = false
    have hs0 : (runHealth s [false, false, false]).consecutiveSuccesses = 0 := by
      show (performHealthCheck (performHealthCheck (performHealthCheck s false)
        false) false).consecutiveSuccesses = 0
      rw [hsucc0]
    rw [hs0, if_neg (by decide), h3]

/-- C7: any text no longer than `maxChunkSize` comes back from
chunkContentForEmbedding as the one-element sequence holding the original
text unchanged. -/
theorem chunkContent_roundtrip (content : String) (maxChunkSize : Nat)
    (h : content.length ≤ maxChunkSize) :
    chunkContentForEmbedding content maxChunkSize = [content] := by
  rw [chunkContentForEmbedding, if_pos h]

/-- Witness for C7 at the default chunk size. -/
theorem chunkContent_roundtrip_witness :
    chunkContentForEmbedding ("hello world") defaultMaxChunkSize =
      [("hello world")] :=
  chunkContent_roundtrip ("hello world") defaultMaxChunkSize (by decide)

/-- Helper: a text longer than `maxChunkSize` without any sentence terminator
comes back as one chunk: the original text when its trim is empty, else the
trimmed text. -/
theorem chunkContent_no_term_helper (content : String) (maxChunkSize : Nat)
    (hlong : maxChunkSize < content.length)
    (hterm : ∀ c ∈ content.data, isTerminator c = false) :
    chunkContentForEmbedding content maxChunkSize =
      [if jsTrim content = "" then content else jsTrim content] := by
  rw [chunkContentForEmbedding, if_neg (by omega)]
  dsimp only
  rw [splitTerminators_no_term content hterm]
  by_cases ht : jsTrim content = ""
  · have hloop : chunkLoop maxChunkSize [content] [] ("") = [] := by
      rw [chunkLoop]
      dsimp only
      rw [if_pos ht, chunkLoop,
        if_neg (show ¬(jsTrim ("") ≠ ("" : String)) by decide)]
    rw [hloop, if_neg (by decide), if_pos ht]
  · have hfinal : chunkLoop maxChunkSize [] [] (jsTrim content) =
        [jsTrim content] := by
      rw [chunkLoop, jsTrim_idem content, if_pos ht]
      rfl
    have hloop : chunkLoop maxChunkSize [content] [] ("") = [jsTrim content] := by
      rw [chunkLoop]
      dsimp only
      rw [if_neg ht]
      by_cases hsz : maxChunkSize < ("" : String).length + (jsTrim content).length
      · rw [if_pos hsz,
          if_neg (show ¬(jsTrim ("") ≠ ("" : String)) by decide)]
        exact hfinal
      · rw [if_neg hsz]
        have happ : ("" : String) ++ (if ("" : String) ≠ "" then ". " else "") ++
            jsTrim content = jsTrim content := by
          rw [if_neg (show ¬(("" : String) ≠ "") by decide)]
          simp
        rw [happ]
        exact hfinal
    rw [hloop, if_pos (show 0 < [jsTrim content].length by simp), if_neg ht]

/-- C8 counterexample: `"aaaa "` with `maxChunkSize = 3` is longer than the
limit and has no sentence terminator, yet the returned single chunk is the
*trimmed* text `"aaaa"`, not the original text unchanged. -/
theorem chunkContent_long_untrimmed_changed :
    chunkContentForEmbedding ("aaaa ") 3 = [("aaaa")] ∧
    ("aaaa" : String) ≠ ("aaaa ") := by
  constructor
  · rw [chunkContent_no_term_helper ("aaaa ") 3 (by decide) (by decide)]
    rw [if_neg (by decide)]
    decide
  · decide

/-- C8 (amended): a text longer than `maxChunkSize` in which no sentence
terminator occurs is returned as a single chunk rather than split mid-
sentence, but holding the whitespace-trimmed text: the original text
unchanged exactly when it has no leading or trailing whitespace (an
all-whitespace text is returned unchanged). -/
theorem chunkContent_no_terminator_single_chunk (content : String)
    (maxChunkSize : Nat) (hlong : maxChunkSize < content.length)
    (hterm : ∀ c ∈ content.data, isTerminator c = false) :
    chunkContentForEmbedding content maxChunkSize =
      [if jsTrim content = "" then content else jsTrim content] ∧
    (jsTrim content = content →
      chunkContentForEmbedding content maxChunkSize = [content]) := by
  refine ⟨chunkContent_no_term_helper content maxChunkSize hlong hterm, ?_⟩
  intro he
  rw [chunkContent_no_term_helper content maxChunkSize hlong hterm]
  by_cases h0 : jsTrim content = ""
  · rw [if_pos h0]
  · rw [if_neg h0, he]

/-- Witness for the amended C8 at a concrete long terminator-free text. -/
theorem chunkContent_no_terminator_single_chunk_witness :
    chunkContentForEmbedding ("aaaa ") 3 = [jsTrim ("aaaa ")] := by
  have h := chunkContent_no_terminator_single_chunk ("aaaa ") 3
    (by decide) (by decide)
  rw [h.1]
  rw [if_neg (by decide)]

/-- C10: normalizePublisherName is idempotent, and every returned value is
either a canonical key of the alias table or the original input string
unchanged. -/
theorem normalizePublisherName_idempotent (s : String) :
    normalizePublisherName (normalizePublisherName s) = normalizePublisherName s ∧
    (normalizePublisherName s ∈ canonicalKeys ∨ normalizePublisherName s = s) := by
  have hkeys : ∀ k ∈ canonicalKeys, normalizePublisherName k = k := by decide
  have hrange : normalizePublisherName s ∈ canonicalKeys ∨
      normalizePublisherName s = s := by
    rw [normalizePublisherName]
    by_cases hc : canonicalKeys.contains (jsTrim (jsToLower s))
    · rw [if_pos hc]
      exact Or.inl (List.mem_of_elem_eq_true hc)
    · rw [if_neg hc]
      cases hfind : publisherAliases.find? (fun p => p.2.contains (jsTrim (jsToLower s))) with
      | none => exact Or.inr rfl
      | some p =>
        refine Or.inl ?_
        exact List.mem_map_of_mem Prod.fst (List.mem_of_find?_eq_some hfind)
  refine ⟨?_, hrange⟩
  rcases hrange with hmem | heq
  · exact hkeys _ hmem
  · rw [heq]
    exact heq

end Mulabot
